import Mathlib

/-!
A verification development for the ModLog modal-logic checker.

The Python sources (`data.py`, `parser.py`) are embedded shallowly:
world identifiers become natural numbers, Python sets become `Finset Nat`,
the `defaultdict` valuation and relation become total functions returning
`∅` for absent keys, and the mutable blind-world cache of `Kripke` becomes
an explicit `Option (Finset Nat)` field threaded through `blind_worlds`.
The interning table of `data.py` is modelled as an explicit store mapping
construction keys to addresses, where an address stands for a Python
object identity.
-/

namespace ModLog

/-- The expression tree of `data.py`: one constructor per concrete
subclass of `LogicExpression` (`And`, `Or`, `Implies`, `Not`, `Box`,
`Diamond`, `Var`, `Constant`). -/
inductive LogicExpression where
  | And (left right : LogicExpression)
  | Or (left right : LogicExpression)
  | Implies (left right : LogicExpression)
  | Not (expr : LogicExpression)
  | Box (expr : LogicExpression)
  | Diamond (expr : LogicExpression)
  | Var (name : String)
  | Constant (value : Bool)
deriving DecidableEq

/-- The `class_name` class attribute of each variant.  Note that in the
source `Diamond.class_name` is the string `'box'`, identical to
`Box.class_name`. -/
def class_name : LogicExpression → String
  | .And _ _ => "and"
  | .Or _ _ => "or"
  | .Implies _ _ => "implies"
  | .Not _ => "not"
  | .Box _ => "box"
  | .Diamond _ => "box"
  | .Var _ => "var"
  | .Constant _ => "const"

/-- `LogicExpression.same_type`: compares the `class_name` strings. -/
def same_type (a b : LogicExpression) : Bool :=
  class_name a == class_name b

/-- The `Kripke` model of `data.py`.  `V` is the valuation
(`defaultdict(set)`), `W` the world set, `R` the accessibility relation
(`defaultdict(set)`), and `cached_blind_worlds` the
`_cached_blind_worlds` field (`None` initially). -/
structure Kripke where
  V : String → Finset Nat
  W : Finset Nat
  R : Nat → Finset Nat
  cached_blind_worlds : Option (Finset Nat)

/-- `Kripke.blind_worlds`: returns the cached set when present, otherwise
computes `{w ∈ W | R[w] = ∅}`, stores it in the cache and returns it.
The pair is (returned set, state of the model after the call). -/
def Kripke.blind_worlds (k : Kripke) : Finset Nat × Kripke :=
  match k.cached_blind_worlds with
  | some s => (s, k)
  | none =>
    let s := k.W.filter fun w => k.R w = ∅
    (s, ⟨k.V, k.W, k.R, some s⟩)

/-- `Kripke.add_world`: adds a world to `W`.  The cache field is left
untouched, exactly as in the source. -/
def Kripke.add_world (k : Kripke) (w : Nat) : Kripke :=
  ⟨k.V, insert w k.W, k.R, k.cached_blind_worlds⟩

/-- `Kripke.add_trans`: adds one transition `t = (a, b)` by inserting `b`
into `R[a]`.  The cache field is left untouched, exactly as in the
source. -/
def Kripke.add_trans (k : Kripke) (t : Nat × Nat) : Kripke :=
  ⟨k.V, k.W, fun a => if a = t.1 then insert t.2 (k.R a) else k.R a,
    k.cached_blind_worlds⟩

/-- `Kripke.add_val`: adds world `w` to `V[p]`. -/
def Kripke.add_val (k : Kripke) (p : String) (w : Nat) : Kripke :=
  ⟨fun q => if q = p then insert w (k.V q) else k.V q, k.W, k.R,
    k.cached_blind_worlds⟩

/-- The `calc` methods of the expression classes (named `calc'` here
because `calc` is a Lean keyword), dispatching on the variant:
  * `And`: intersection, `Or`: union;
  * `Implies`: `res = W \ lhs`; if `lhs` is empty return `res`
    (the short-circuit path), else `res ∪ (lhs ∩ rhs)`;
  * `Not`: `W \ calc(e)`;
  * `Box`: `{w ∈ W | ∀ v ∈ R[w], v ∈ calc(e)} ∪ blind_worlds()`;
  * `Diamond`: `{w ∈ W | ∃ v ∈ R[w], v ∈ calc(e)}`;
  * `Var`: `V[name]` (note: not intersected with `W`);
  * `Constant`: `W` when true, `∅` when false.
Inside one evaluation the cache write performed by `blind_worlds` is
invisible to the produced set (the model is not otherwise mutated), so
only the returned first component is used here. -/
def calc' : LogicExpression → Kripke → Finset Nat
  | .And l r, k => calc' l k ∩ calc' r k
  | .Or l r, k => calc' l k ∪ calc' r k
  | .Implies l r, k =>
    let lhs := calc' l k
    let res := k.W \ lhs
    if lhs = ∅ then res else res ∪ (lhs ∩ calc' r k)
  | .Not e, k => k.W \ calc' e k
  | .Box e, k =>
    let internal := calc' e k
    let actual := k.W.filter fun w => ∀ v ∈ k.R w, v ∈ internal
    actual ∪ (k.blind_worlds).1
  | .Diamond e, k =>
    let internal := calc' e k
    k.W.filter fun w => ∃ v ∈ k.R w, v ∈ internal
  | .Var n, k => k.V n
  | .Constant b, k => if b then k.W else ∅

/-- `Kripke.entails`: `sorted(self.W) == sorted(expression.calc(self))`,
i.e. equality of the two sorted world lists. -/
def Kripke.entails (k : Kripke) (e : LogicExpression) : Bool :=
  k.W.sort (· ≤ ·) == (calc' e k).sort (· ≤ ·)

/-- A model's blind-world cache is consistent: it is either unset or it
holds the blind-world set of the current `W` and `R`.  Every model that
has not been mutated after a `blind_worlds` call satisfies this. -/
def Kripke.cache_ok (k : Kripke) : Prop :=
  k.cached_blind_worlds = none ∨
    k.cached_blind_worlds = some (k.W.filter fun w => k.R w = ∅)

/-- Helper used to state relation inertness: replace the relation while
keeping the other fields. -/
def Kripke.set_R (k : Kripke) (r : Nat → Finset Nat) : Kripke :=
  ⟨k.V, k.W, r, k.cached_blind_worlds⟩

namespace Constant

/-- `Constant.true_symbols` from the source. -/
def true_symbols : List String := ["True", "true", "1", "⊤"]

/-- `Constant.false_symbols` from the source. -/
def false_symbols : List String := ["False", "false", "0", "⊥"]

/-- `Constant.symbols` from the source: note that `⊤` and `⊥` are not
listed here. -/
def symbols : List String := ["true", "1", "false", "0"]

end Constant

/-- Python's `str.lower()`, character by character.  (All names reaching
it in this development are ASCII or case-less symbols such as `⊤`, on
which this agrees with Python.) -/
def to_lower (s : String) : String := ⟨s.data.map Char.toLower⟩

/-- `create_var_const` from `data.py`: a name whose lowercasing is in
`Constant.symbols` yields a `Constant` whose value is membership of the
lowercased name in `Constant.true_symbols`; any other name yields a
`Var`.  The interning table only affects object identity (modelled
separately by the instance store), not the value built here. -/
def create_var_const (name : String) : LogicExpression :=
  if to_lower name ∈ Constant.symbols then
    .Constant (decide (to_lower name ∈ Constant.true_symbols))
  else
    .Var name

/-- The amended variable/constant factory contract, stated from the
amended claim wording: lowercase `"true"`/`"1"` give the true constant,
lowercase `"false"`/`"0"` give the false constant, and every other name
(including `⊤` and `⊥`) gives a variable. -/
def create_var_const_amended_spec (name : String) : LogicExpression :=
  if to_lower name = "true" ∨ to_lower name = "1" then .Constant true
  else if to_lower name = "false" ∨ to_lower name = "0" then .Constant false
  else .Var name

/-- `And.symbols`. -/
def and_symbols : List String := ["and", "&&", "&", "^", "/\\", "∧", "*"]

/-- `Or.symbols`. -/
def or_symbols : List String := ["or", "||", "|", "v", "\\/", "∨", "+"]

/-- `Implies.symbols`. -/
def implies_symbols : List String := ["implies", "->", "=>", "→"]

/-- `Not.symbols`. -/
def not_symbols : List String := ["not", "~", "¬", "!"]

/-- `Box.symbols`. -/
def box_symbols : List String := ["☐", "box"]

/-- `Diamond.symbols`. -/
def diamond_symbols : List String := ["◇", "diamond"]

/-- `prefix_operators` from `data.py`: the symbols of the prefix classes
`Not`, `Box`, `Diamond` in that order. -/
def prefix_operators : List String := not_symbols ++ box_symbols ++ diamond_symbols

/-- The concrete classes an operator symbol can refer to. -/
inductive OpClass where
  | and | or | implies | not | box | diamond
deriving DecidableEq

/-- The `operator_class` dictionary: maps each surface symbol to its
class.  The symbol lists are pairwise disjoint, so testing each list in
turn is equivalent to the dictionary built in the source. -/
def operator_class (s : String) : Option OpClass :=
  if s ∈ and_symbols then some OpClass.and
  else if s ∈ or_symbols then some OpClass.or
  else if s ∈ implies_symbols then some OpClass.implies
  else if s ∈ not_symbols then some OpClass.not
  else if s ∈ box_symbols then some OpClass.box
  else if s ∈ diamond_symbols then some OpClass.diamond
  else none

/-- The value built by `create_expression` for an operator symbol applied
to already-built children (the Python function is variadic; arity
mismatch or an unknown operator is a lookup failure, `none` here).  The
`'var'`/`'const'`/`'varconst'` escape delegates to `create_var_const` in
the source and is modelled by that function directly. -/
def create_expression (op : String) (args : List LogicExpression) :
    Option LogicExpression :=
  match operator_class op, args with
  | some OpClass.and, [l, r] => some (.And l r)
  | some OpClass.or, [l, r] => some (.Or l r)
  | some OpClass.implies, [l, r] => some (.Implies l r)
  | some OpClass.not, [e] => some (.Not e)
  | some OpClass.box, [e] => some (.Box e)
  | some OpClass.diamond, [e] => some (.Diamond e)
  | _, _ => none

/-- `parse_infix_op` from `parser.py`: starting from the first operand,
repeatedly combine the accumulated left tree with the next
(operator, operand) pair — a left-to-right fold. -/
def parse_infix_op (left : LogicExpression) :
    List (String × LogicExpression) → Option LogicExpression
  | [] => some left
  | (op, right) :: rest =>
    match create_expression op [left, right] with
    | some l2 => parse_infix_op l2 rest
    | none => none

/-- `parse_prefix_op` from `parser.py`: the token run `[op₁, …, opₙ, atom]`
is folded right-to-left, so the operator nearest the atom binds
tightest. -/
def parse_prefix_op (ops : List String) (a : LogicExpression) :
    Option LogicExpression :=
  match ops with
  | [] => some a
  | op :: rest =>
    match parse_prefix_op rest a with
    | some e => create_expression op [e]
    | none => none

/-- pyparsing skips its default whitespace characters before each
terminal. -/
def skip_ws (cs : List Char) : List Char :=
  cs.dropWhile fun c => c == ' ' || c == '\t' || c == '\n'

/-- The character class of `Word(alphas + '_')`. -/
def word_char (c : Char) : Bool := c.isAlpha || c == '_'

/-- `Word(alphas + '_')`: the maximal nonempty run of letters and
underscores at the current position. -/
def match_word (cs : List Char) : Option (String × List Char) :=
  let tok := cs.takeWhile word_char
  if tok.isEmpty then none
  else some (String.mk tok, cs.drop tok.length)

/-- Caseless prefix stripping: if the input starts with the given symbol
compared case-insensitively, return the rest of the input. -/
def strip_caseless : List Char → List Char → Option (List Char)
  | [], cs => some cs
  | _ :: _, [] => none
  | d :: ds, c :: cs =>
    if c.toLower == d.toLower then strip_caseless ds cs else none

/-- `oneOf(symbols, caseless=True)`: match any listed symbol at the
current position, preferring the longest (pyparsing reorders masked
alternatives longest-first); the canonical defined symbol is returned,
as `CaselessLiteral` does. -/
def match_one_of (syms : List String) (cs : List Char) :
    Option (String × List Char) :=
  syms.foldl
    (fun best s =>
      match strip_caseless s.toList cs with
      | none => best
      | some rest =>
        match best with
        | some (b, _) => if b.length < s.length then some (s, rest) else best
        | none => some (s, rest))
    none

/-- The greedy `ZeroOrMore(prefix_op)` run before an atom. -/
def collect_prefix_ops : Nat → List Char → List String × List Char
  | 0, cs => ([], cs)
  | fuel + 1, cs =>
    let cs' := skip_ws cs
    match match_one_of prefix_operators cs' with
    | some (op, rest) =>
      let (ops, rest2) := collect_prefix_ops fuel rest
      (op :: ops, rest2)
    | none => ([], cs')

mutual

/-- `atom := varconst | '(' expression ')'` — `varconst` is tried first,
and a word token is built through `create_var_const`. -/
def parse_atom : Nat → List Char → Option (LogicExpression × List Char)
  | 0, _ => none
  | fuel + 1, cs =>
    let cs' := skip_ws cs
    match match_word cs' with
    | some (w, rest) => some (create_var_const w, rest)
    | none =>
      match cs' with
      | '(' :: rest =>
        match parse_expression fuel rest with
        | some (e, rest2) =>
          match skip_ws rest2 with
          | ')' :: rest3 => some (e, rest3)
          | _ => none
        | none => none
      | _ => none

/-- `prefix_expr := prefix_op* atom`, combined by `parse_prefix_op`.  As
in pyparsing, a greedily consumed prefix run is not re-tried when the
following atom fails. -/
def parse_prefix_expr : Nat → List Char → Option (LogicExpression × List Char)
  | 0, _ => none
  | fuel + 1, cs =>
    let (ops, rest) := collect_prefix_ops (fuel + 1) cs
    match parse_atom fuel rest with
    | some (a, rest2) =>
      match parse_prefix_op ops a with
      | some e => some (e, rest2)
      | none => none
    | none => none

/-- The `ZeroOrMore(and_symbol + prefix_expr)` tail: when the symbol
matches but the operand fails, the position is restored to before the
symbol, as pyparsing does. -/
def parse_and_rest : Nat → List Char →
    Option (List (String × LogicExpression) × List Char)
  | 0, _ => none
  | fuel + 1, cs =>
    match match_one_of and_symbols (skip_ws cs) with
    | some (op, rest) =>
      match parse_prefix_expr fuel rest with
      | some (e, rest2) =>
        match parse_and_rest fuel rest2 with
        | some (l, rest3) => some ((op, e) :: l, rest3)
        | none => none
      | none => some ([], cs)
    | none => some ([], cs)

/-- `and_expr := prefix_expr (and_symbol prefix_expr)*`, combined by
`parse_infix_op`. -/
def parse_and_expr : Nat → List Char → Option (LogicExpression × List Char)
  | 0, _ => none
  | fuel + 1, cs =>
    match parse_prefix_expr fuel cs with
    | some (e, rest) =>
      match parse_and_rest fuel rest with
      | some (l, rest2) =>
        match parse_infix_op e l with
        | some e2 => some (e2, rest2)
        | none => none
      | none => none
    | none => none

/-- The `ZeroOrMore(or_symbol + and_expr)` tail. -/
def parse_or_rest : Nat → List Char →
    Option (List (String × LogicExpression) × List Char)
  | 0, _ => none
  | fuel + 1, cs =>
    match match_one_of or_symbols (skip_ws cs) with
    | some (op, rest) =>
      match parse_and_expr fuel rest with
      | some (e, rest2) =>
        match parse_or_rest fuel rest2 with
        | some (l, rest3) => some ((op, e) :: l, rest3)
        | none => none
      | none => some ([], cs)
    | none => some ([], cs)

/-- `or_expr := and_expr (or_symbol and_expr)*`. -/
def parse_or_expr : Nat → List Char → Option (LogicExpression × List Char)
  | 0, _ => none
  | fuel + 1, cs =>
    match parse_and_expr fuel cs with
    | some (e, rest) =>
      match parse_or_rest fuel rest with
      | some (l, rest2) =>
        match parse_infix_op e l with
        | some e2 => some (e2, rest2)
        | none => none
      | none => none
    | none => none

/-- The `ZeroOrMore(impl_symbol + or_expr)` tail. -/
def parse_expression_rest : Nat → List Char →
    Option (List (String × LogicExpression) × List Char)
  | 0, _ => none
  | fuel + 1, cs =>
    match match_one_of implies_symbols (skip_ws cs) with
    | some (op, rest) =>
      match parse_or_expr fuel rest with
      | some (e, rest2) =>
        match parse_expression_rest fuel rest2 with
        | some (l, rest3) => some ((op, e) :: l, rest3)
        | none => none
      | none => some ([], cs)
    | none => some ([], cs)

/-- `expression := or_expr (impl_symbol or_expr)*`. -/
def parse_expression : Nat → List Char → Option (LogicExpression × List Char)
  | 0, _ => none
  | fuel + 1, cs =>
    match parse_or_expr fuel cs with
    | some (e, rest) =>
      match parse_expression_rest fuel rest with
      | some (l, rest2) =>
        match parse_infix_op e l with
        | some e2 => some (e2, rest2)
        | none => none
      | none => none
    | none => none

end

/-- `parse(string)`: `parseString` with its default `parseAll=False`
semantics — a match of the `expression` production at the start of the
input succeeds and any trailing unconsumed text is ignored; failure to
match raises `ParseError`, modelled as `none`.  The fuel strictly
exceeds the number of parser steps possible on the given input. -/
def parse (s : String) : Option LogicExpression :=
  match parse_expression (8 * (s.length + 1)) s.toList with
  | some (e, _) => some e
  | none => none

/-- A construction key of the interning table `instances`: the Python
dictionary key `(constructor, args)`, where expression children appear
by object identity, modelled as addresses (`Nat`). -/
inductive NodeKey where
  | and (l r : Nat)
  | or (l r : Nat)
  | implies (l r : Nat)
  | not (e : Nat)
  | box (e : Nat)
  | diamond (e : Nat)
  | var (n : String)
  | const (b : Bool)
deriving DecidableEq

/-- The interning store: the `instances` dictionary as an association
list from keys to addresses, plus the next fresh address. -/
structure Instances where
  table : List (NodeKey × Nat)
  next : Nat

/-- Dictionary lookup in the association list. -/
def find_instance (key : NodeKey) : List (NodeKey × Nat) → Option Nat
  | [] => none
  | p :: rest => if p.1 = key then some p.2 else find_instance key rest

/-- The lookup-or-create discipline shared by `create_expression` and
`create_var_const`: return the stored instance for the key if present,
otherwise allocate a fresh instance, store it, and return it. -/
def create_node (s : Instances) (key : NodeKey) : Nat × Instances :=
  match find_instance key s.table with
  | some a => (a, s)
  | none => (s.next, ⟨(key, s.next) :: s.table, s.next + 1⟩)

/-- Well-formedness of a store: every stored address was allocated
(below `next`) and distinct keys hold distinct instances.  The empty
store is well formed and `create_node` preserves this. -/
def Instances.wf (s : Instances) : Prop :=
  (∀ p ∈ s.table, p.2 < s.next) ∧
    (∀ p ∈ s.table, ∀ q ∈ s.table, p.2 = q.2 → p.1 = q.1)

/-- The empty interning store. -/
def empty_instances : Instances := ⟨[], 0⟩

/-- Concrete model: worlds `{0, 1}`, one edge `0 → 1`, variable `"p"`
true exactly in world `1`, cache unset.  (Scenario 1 of the spec with
`w1 := 0`, `w2 := 1`.) -/
def M₀ : Kripke :=
  ⟨fun p => if p = "p" then {1} else ∅, {0, 1},
    fun w => if w = 0 then {1} else ∅, none⟩

/-- Concrete model whose valuation mentions an undeclared world: worlds
`{0}`, no edges, `"p"` true in the undeclared world `1`. -/
def M₁ : Kripke :=
  ⟨fun p => if p = "p" then {1} else ∅, {0}, fun _ => ∅, none⟩

/-- Concrete model with an empty world set whose valuation mentions the
undeclared world `0` for `"b"`. -/
def M₂ : Kripke :=
  ⟨fun p => if p = "b" then {0} else ∅, ∅, fun _ => ∅, none⟩

/-- Concrete model with an edge to an undeclared world: worlds `{0}`,
empty valuation, one edge `0 → 5` whose target is undeclared. -/
def M₃ : Kripke :=
  ⟨fun _ => ∅, {0}, fun w => if w = 0 then {5} else ∅, none⟩

/-- The empty Kripke model as built by `Kripke.__init__`. -/
def K₀ : Kripke := ⟨fun _ => ∅, ∅, fun _ => ∅, none⟩

/-- `K₀` after `add_world(0)`. -/
def K₁ : Kripke := K₀.add_world 0

/-- `K₁` after a first `blind_worlds()` call (which populates the
cache). -/
def K₂ : Kripke := (K₁.blind_worlds).2

/-- `K₂` after `add_trans((0, 1))`: world `0` now has an outgoing edge,
but the cache still records it as blind. -/
def K₃ : Kripke := K₂.add_trans (0, 1)

end ModLog
namespace ModLog

/-! ### Helper lemmas -/

/-- Under a consistent cache, `blind_worlds` returns the blind-world set
of the current model state. -/
lemma blind_val_of_cache_ok {k : Kripke} (h : k.cache_ok) :
    (k.blind_worlds).1 = k.W.filter fun w => k.R w = ∅ := by
  cases h with
  | inl h0 => unfold Kripke.blind_worlds; rw [h0]
  | inr h1 => unfold Kripke.blind_worlds; rw [h1]

@[simp] lemma set_R_V (k : Kripke) (r : Nat → Finset Nat) :
    (k.set_R r).V = k.V := rfl

@[simp] lemma set_R_W (k : Kripke) (r : Nat → Finset Nat) :
    (k.set_R r).W = k.W := rfl

@[simp] lemma set_R_R (k : Kripke) (r : Nat → Finset Nat) :
    (k.set_R r).R = r := rfl

@[simp] lemma set_R_cache (k : Kripke) (r : Nat → Finset Nat) :
    (k.set_R r).cached_blind_worlds = k.cached_blind_worlds := rfl

/-- When every valuation set lies inside `W` and the cache is consistent,
every evaluation result lies inside `W`. -/
lemma calc_sub_W {k : Kripke} (hV : ∀ p, k.V p ⊆ k.W) (hc : k.cache_ok) :
    ∀ e : LogicExpression, calc' e k ⊆ k.W := by
  intro e
  induction e with
  | And l r ihl ihr =>
    simp only [calc']
    exact Finset.inter_subset_left.trans ihl
  | Or l r ihl ihr =>
    simp only [calc']
    exact Finset.union_subset ihl ihr
  | Implies l r ihl ihr =>
    simp only [calc']
    split
    · exact Finset.sdiff_subset
    · exact Finset.union_subset Finset.sdiff_subset
        (Finset.inter_subset_left.trans ihl)
  | Not e ih =>
    simp only [calc']
    exact Finset.sdiff_subset
  | Box e ih =>
    simp only [calc']
    refine Finset.union_subset (Finset.filter_subset _ _) ?_
    rw [blind_val_of_cache_ok hc]
    exact Finset.filter_subset _ _
  | Diamond e ih =>
    simp only [calc']
    exact Finset.filter_subset _ _
  | Var n =>
    simp only [calc']
    exact hV n
  | Constant b =>
    simp only [calc']
    split
    · exact subset_rfl
    · exact Finset.empty_subset _

/-- Replacing the relation outside `W` leaves `blind_worlds` unchanged. -/
lemma blind_val_set_R (k : Kripke) (r : Nat → Finset Nat)
    (hR : ∀ w ∈ k.W, r w = k.R w) :
    ((k.set_R r).blind_worlds).1 = (k.blind_worlds).1 := by
  unfold Kripke.blind_worlds
  cases hcb : k.cached_blind_worlds with
  | some s => rw [set_R_cache, hcb]
  | none =>
    rw [set_R_cache, hcb]
    simp only [set_R_W, set_R_R]
    exact Finset.filter_congr fun w hw => by rw [hR w hw]

/-- Relation entries whose source world is undeclared are inert:
replacing the relation outside `W` leaves every evaluation unchanged. -/
lemma calc_set_R (k : Kripke) (r : Nat → Finset Nat)
    (hR : ∀ w ∈ k.W, r w = k.R w) :
    ∀ e : LogicExpression, calc' e (k.set_R r) = calc' e k := by
  intro e
  induction e with
  | And l r' ihl ihr => simp only [calc', ihl, ihr]
  | Or l r' ihl ihr => simp only [calc', ihl, ihr]
  | Implies l r' ihl ihr => simp only [calc', ihl, ihr, set_R_W]
  | Not e ih => simp only [calc', ih, set_R_W]
  | Box e ih =>
    simp only [calc', ih, set_R_W, set_R_R]
    rw [blind_val_set_R k r hR]
    congr 1
    exact Finset.filter_congr fun w hw => by rw [hR w hw]
  | Diamond e ih =>
    simp only [calc', ih, set_R_W, set_R_R]
    exact Finset.filter_congr fun w hw => by rw [hR w hw]
  | Var n => simp only [calc', set_R_V]
  | Constant b => simp only [calc', set_R_W]

/-- The `Implies` evaluation as a single formula: the `if` short-circuit
branch coincides with the general branch when the premise set is
empty. -/
lemma implies_calc_formula (k : Kripke) (a b : LogicExpression) :
    calc' (.Implies a b) k =
      (k.W \ calc' a k) ∪ (calc' a k ∩ calc' b k) := by
  simp only [calc']
  split
  · rename_i h
    rw [h]
    simp
  · rfl

lemma M₀_cache_ok : M₀.cache_ok := Or.inl rfl

lemma M₀_V_sub : ∀ p, M₀.V p ⊆ M₀.W := by
  intro p
  show (if p = "p" then ({1} : Finset Nat) else ∅) ⊆ ({0, 1} : Finset Nat)
  split
  · decide
  · decide

lemma find_instance_mem {key : NodeKey} {l : List (NodeKey × Nat)} {a : Nat}
    (h : find_instance key l = some a) : (key, a) ∈ l := by
  induction l with
  | nil => simp [find_instance] at h
  | cons p rest ih =>
    simp only [find_instance] at h
    split at h
    · rename_i hpk
      injection h with h2
      have hpa : (key, a) = p := by rw [← hpk, ← h2]
      rw [hpa]
      exact List.mem_cons_self p rest
    · exact List.mem_cons_of_mem _ (ih h)

end ModLog
namespace ModLog

/-! ### Claim theorems -/

/-- Claim C1: for every model `M` and expression `e`, `entails(M, e)`
returns true exactly when `calc(e, M)` equals `M.Worlds` as a set — not
a non-emptiness check and not a superset check tolerating extra worlds
outside `Worlds`. -/
theorem entails_iff_calc_eq (k : Kripke) (e : LogicExpression) :
    k.entails e = true ↔ calc' e k = k.W := by
  unfold Kripke.entails
  rw [beq_iff_eq]
  constructor
  · intro h
    ext a
    have h1 : a ∈ (calc' e k).sort (· ≤ ·) ↔ a ∈ calc' e k :=
      Finset.mem_sort _
    have h2 : a ∈ k.W.sort (· ≤ ·) ↔ a ∈ k.W := Finset.mem_sort _
    rw [← h1, ← h, h2]
  · intro h
    rw [h]

/-- Claim C2: under a consistent blind-world cache, `calc(Box(e), M)` is
exactly the set of declared worlds all of whose successors satisfy `e`
(vacuously including every blind world), and `calc(Diamond(e), M)` is
exactly the set of declared worlds with at least one successor
satisfying `e` (excluding every blind world). -/
theorem box_diamond_semantics (k : Kripke) (e : LogicExpression)
    (h : k.cache_ok) :
    calc' (.Box e) k = (k.W.filter fun w => ∀ v ∈ k.R w, v ∈ calc' e k) ∧
      calc' (.Diamond e) k =
        (k.W.filter fun w => ∃ v ∈ k.R w, v ∈ calc' e k) ∧
      ∀ w ∈ k.W, k.R w = ∅ →
        w ∈ calc' (.Box e) k ∧ w ∉ calc' (.Diamond e) k := by
  have hbox : calc' (.Box e) k =
      k.W.filter fun w => ∀ v ∈ k.R w, v ∈ calc' e k := by
    simp only [calc']
    rw [blind_val_of_cache_ok h, Finset.union_eq_left]
    intro x hx
    simp only [Finset.mem_filter] at hx ⊢
    refine ⟨hx.1, fun v hv => ?_⟩
    rw [hx.2] at hv
    exact absurd hv (Finset.not_mem_empty v)
  have hdia : calc' (.Diamond e) k =
      k.W.filter fun w => ∃ v ∈ k.R w, v ∈ calc' e k := rfl
  refine ⟨hbox, hdia, ?_⟩
  intro w hw hRw
  constructor
  · rw [hbox]
    refine Finset.mem_filter.mpr ⟨hw, fun v hv => ?_⟩
    rw [hRw] at hv
    exact absurd hv (Finset.not_mem_empty v)
  · rw [hdia]
    simp [Finset.mem_filter, hRw]

/-- Witness for C2, at the spec's scenario-1 model and `p`. -/
theorem box_diamond_semantics_witness :
    M₀.cache_ok ∧
      (calc' (.Box (.Var ("p"))) M₀ =
          (M₀.W.filter fun w => ∀ v ∈ M₀.R w, v ∈ calc' (.Var ("p")) M₀) ∧
        calc' (.Diamond (.Var ("p"))) M₀ =
          (M₀.W.filter fun w => ∃ v ∈ M₀.R w, v ∈ calc' (.Var ("p")) M₀) ∧
        ∀ w ∈ M₀.W, M₀.R w = ∅ →
          w ∈ calc' (.Box (.Var ("p"))) M₀ ∧
            w ∉ calc' (.Diamond (.Var ("p"))) M₀) :=
  ⟨M₀_cache_ok, box_diamond_semantics M₀ (.Var ("p")) M₀_cache_ok⟩

/-- Claim C3 counterexample, refuting both inertness conjuncts of the
claim at concrete models.  First, undeclared worlds do occur in result
sets: in `M₁` the valuation of `"p"` holds the undeclared world `1`,
and `calc(Var("p"), M₁) = {1}` is not contained in `M₁.Worlds = {0}`.
Second, an edge to an undeclared world is not inert for declared
worlds: in `M₃` (worlds `{0}`, edge `0 → 5` with `5` undeclared, empty
valuation, so trivially `V ⊆ W`), `calc(Box(⊤), M₃) = ∅` because the
undeclared successor `5` fails the Box test and `0` is not blind,
whereas erasing the relation gives `calc(Box(⊤)) = {0}` — the edge's
presence changes whether the declared world `0` occurs in the
result. -/
theorem calc_subset_cex :
    (¬ calc' (.Var ("p")) M₁ ⊆ M₁.W) ∧
      calc' (.Box (.Constant true)) M₃ ≠
        calc' (.Box (.Constant true)) (M₃.set_R fun _ => ∅) := by
  constructor <;> decide

/-- Claim C3 (amended): provided every valuation set is contained in
`Worlds` and the blind-world cache is consistent, `calc(e, M)` is a
subset of `M.Worlds`; and relation entries whose source world is
undeclared are inert (replacing the relation outside `Worlds` never
changes any result).  No more survives the counterexample: without the
valuation proviso undeclared worlds occur in results, and edges from a
declared source to an undeclared target are not inert even under the
proviso — they falsify the Box test at the source, as the
counterexample's second part shows. -/
theorem calc_subset_and_inert (k : Kripke) (e : LogicExpression)
    (hV : ∀ p, k.V p ⊆ k.W) (hc : k.cache_ok) :
    calc' e k ⊆ k.W ∧
      ∀ r : Nat → Finset Nat, (∀ w ∈ k.W, r w = k.R w) →
        calc' e (k.set_R r) = calc' e k :=
  ⟨calc_sub_W hV hc e, fun r hr => calc_set_R k r hr e⟩

/-- Witness for the amended C3. -/
theorem calc_subset_and_inert_witness :
    (∀ p, M₀.V p ⊆ M₀.W) ∧ M₀.cache_ok ∧
      (calc' (.Box (.Var ("p"))) M₀ ⊆ M₀.W ∧
        ∀ r : Nat → Finset Nat, (∀ w ∈ M₀.W, r w = M₀.R w) →
          calc' (.Box (.Var ("p"))) (M₀.set_R r) =
            calc' (.Box (.Var ("p"))) M₀) :=
  ⟨M₀_V_sub, M₀_cache_ok,
    calc_subset_and_inert M₀ (.Box (.Var ("p"))) M₀_V_sub M₀_cache_ok⟩

/-- Claim C4 counterexample: in `M₂` (empty world set, `"b"` true in the
undeclared world `0`) the premise set is empty, the short-circuit path
returns `∅`, but `calc(Or(Not(a), b), M₂) = {0}`. -/
theorem implies_or_cex :
    calc' (.Implies (.Var ("a")) (.Var ("b"))) M₂ ≠
      calc' (.Or (.Not (.Var ("a"))) (.Var ("b"))) M₂ := by decide

/-- Claim C4 (amended): provided every valuation set is contained in
`Worlds` and the blind-world cache is consistent,
`calc(Implies(a, b), M) = calc(Or(Not(a), b), M)`, including when the
short-circuit path is taken. -/
theorem implies_eq_or_not (k : Kripke) (a b : LogicExpression)
    (hV : ∀ p, k.V p ⊆ k.W) (hc : k.cache_ok) :
    calc' (.Implies a b) k = calc' (.Or (.Not a) b) k := by
  have hb : calc' b k ⊆ k.W := calc_sub_W hV hc b
  have hrhs : calc' (.Or (.Not a) b) k = (k.W \ calc' a k) ∪ calc' b k := rfl
  rw [implies_calc_formula, hrhs]
  ext x
  simp only [Finset.mem_union, Finset.mem_sdiff, Finset.mem_inter]
  constructor
  · rintro (h | ⟨ha, hbx⟩)
    · exact Or.inl h
    · exact Or.inr hbx
  · rintro (h | hbx)
    · exact Or.inl h
    · by_cases hxa : x ∈ calc' a k
      · exact Or.inr ⟨hxa, hbx⟩
      · exact Or.inl ⟨hb hbx, hxa⟩

/-- Witness for the amended C4. -/
theorem implies_eq_or_not_witness :
    (∀ p, M₀.V p ⊆ M₀.W) ∧ M₀.cache_ok ∧
      calc' (.Implies (.Var ("p")) (.Var ("q"))) M₀ =
        calc' (.Or (.Not (.Var ("p"))) (.Var ("q"))) M₀ :=
  ⟨M₀_V_sub, M₀_cache_ok,
    implies_eq_or_not M₀ (.Var ("p")) (.Var ("q")) M₀_V_sub M₀_cache_ok⟩

/-- Claim C5: binary operator chains of one precedence level are folded
left-to-right.  The fold step of `parse_infix_op` combines the first
two operands before the third for every operator symbol, and concretely
`"a -> b -> c"` parses as `Implies(Implies(a, b), c)` while
`"a & b & c"` parses to the same tree as `"(a & b) & c"`. -/
theorem infix_chains_left_assoc :
    (∀ (e₀ e₁ e₂ : LogicExpression) (op : String),
        parse_infix_op e₀ [(op, e₁), (op, e₂)] =
          (create_expression op [e₀, e₁]).bind
            fun l => create_expression op [l, e₂]) ∧
      parse ("a -> b -> c") =
        some (.Implies (.Implies (.Var ("a")) (.Var ("b"))) (.Var ("c"))) ∧
      parse ("a & b & c") = parse ("(a & b) & c") := by
  refine ⟨?_, by decide, by decide⟩
  intro e₀ e₁ e₂ op
  cases h : create_expression op [e₀, e₁] with
  | none => simp [parse_infix_op, h]
  | some l =>
    simp only [parse_infix_op, h, Option.bind_some]
    cases h2 : create_expression op [l, e₂] with
    | none => simp [parse_infix_op, h2]
    | some l2 => simp [parse_infix_op, h2]

/-- Claim C6 counterexample: the factory does not canonicalize `⊤` — it
yields `Var("⊤")`, not the true constant, because `Constant.symbols`
only lists `'true'`, `'1'`, `'false'`, `'0'`. -/
theorem create_var_const_top_cex :
    create_var_const ("⊤") = .Var ("⊤") ∧
      create_var_const ("⊤") ≠ .Constant true := by
  constructor <;> decide

/-- Claim C6 (amended): a name lowercasing to `"true"` or `"1"` yields
the true constant, one lowercasing to `"false"` or `"0"` yields the
false constant, and every other name — including `⊤` and `⊥` — yields a
variable with that name. -/
theorem create_var_const_characterisation (name : String) :
    create_var_const name = create_var_const_amended_spec name := by
  unfold create_var_const create_var_const_amended_spec
  by_cases h1 : to_lower name = "true"
  · simp [h1, Constant.symbols, Constant.true_symbols]
  by_cases h2 : to_lower name = "1"
  · simp [h2, Constant.symbols, Constant.true_symbols]
  by_cases h3 : to_lower name = "false"
  · simp [h3, Constant.symbols, Constant.true_symbols]
  by_cases h4 : to_lower name = "0"
  · simp [h4, Constant.symbols, Constant.true_symbols]
  · simp [Constant.symbols, h1, h2, h3, h4]

/-- Claim C7: in a well-formed interning store, creating twice with the
same key returns the same instance, and a second creation with a
different key never returns the instance of the first. -/
theorem create_node_interning (s : Instances) (k k' : NodeKey)
    (hwf : s.wf) (hkk : k ≠ k') :
    (create_node (create_node s k).2 k).1 = (create_node s k).1 ∧
      (create_node (create_node s k).2 k').1 ≠ (create_node s k).1 := by
  obtain ⟨hlt, hinj⟩ := hwf
  constructor
  · unfold create_node
    cases hf : find_instance k s.table with
    | some a => simp [hf]
    | none => simp [hf, find_instance]
  · unfold create_node
    cases hf : find_instance k s.table with
    | some a =>
      simp only [hf]
      cases hf2 : find_instance k' s.table with
      | some b =>
        simp only [hf2]
        intro hba
        exact hkk (hinj _ (find_instance_mem hf) _ (find_instance_mem hf2)
          hba.symm)
      | none =>
        simp only [hf2]
        have := hlt _ (find_instance_mem hf)
        omega
    | none =>
      simp only [hf]
      have hhead : find_instance k' ((k, s.next) :: s.table) =
          find_instance k' s.table := by
        simp only [find_instance]
        rw [if_neg]
        intro hkk2
        exact hkk hkk2
      cases hf2 : find_instance k' s.table with
      | some b =>
        simp only [hhead, hf2]
        have := hlt _ (find_instance_mem hf2)
        omega
      | none =>
        simp only [hhead, hf2]
        omega

/-- Witness for C7, starting from the empty store with the keys for
`Var("a")` and `Var("b")`. -/
theorem create_node_interning_witness :
    empty_instances.wf ∧ NodeKey.var ("a") ≠ NodeKey.var ("b") ∧
      ((create_node (create_node empty_instances (.var ("a"))).2
            (.var ("a"))).1 =
          (create_node empty_instances (.var ("a"))).1 ∧
        (create_node (create_node empty_instances (.var ("a"))).2
            (.var ("b"))).1 ≠
          (create_node empty_instances (.var ("a"))).1) :=
  ⟨⟨fun p hp => absurd hp (List.not_mem_nil p),
      fun p hp => absurd hp (List.not_mem_nil p)⟩,
    by decide,
    create_node_interning empty_instances (.var ("a")) (.var ("b"))
      ⟨fun p hp => absurd hp (List.not_mem_nil p),
        fun p hp => absurd hp (List.not_mem_nil p)⟩
      (by decide)⟩

/-- Claim C8 counterexample: `"a)"` has unbalanced parentheses and
trailing unconsumed text, yet `parse` succeeds and returns `Var("a")`
instead of raising `ParseError` — `parseString` is called without
`parseAll`, so trailing input is ignored. -/
theorem parse_trailing_cex : parse ("a)") = some (.Var ("a")) := by decide

/-- Claim C8 (amended): `parse` raises `ParseError` when no prefix of
the input matches the `expression` production — empty input, an
unrecognized leading token, an unclosed parenthesis — but input with
trailing unconsumed text after a valid prefix is accepted: the prefix's
tree is returned and the rest is silently ignored. -/
theorem parse_error_behaviour :
    parse ("") = none ∧ parse ("(a") = none ∧ parse (")") = none ∧
      parse ("a)") = some (.Var ("a")) := by
  refine ⟨by decide, by decide, by decide, by decide⟩

/-- Claim C9: after `add_world(0)`, a first `blind_worlds()` call caches
`{0}`; `add_trans((0, 1))` then gives world `0` an outgoing edge without
invalidating the cache, so the next `blind_worlds()` call still returns
`{0}` although the blind-world set of the current state is `∅`. -/
theorem blind_worlds_stale :
    (K₃.blind_worlds).1 = {0} ∧
      (K₃.W.filter fun w => K₃.R w = ∅) = ∅ := by
  constructor <;> decide

/-- Claim C10: `same_type` cannot distinguish the modal operators —
`Diamond` carries the `class_name` string `'box'`, identical to `Box`'s,
so both cross comparisons return true. -/
theorem same_type_box_diamond (e f : LogicExpression) :
    same_type (.Diamond e) (.Box f) = true ∧
      same_type (.Box e) (.Diamond f) = true :=
  ⟨rfl, rfl⟩

end ModLog
